import Mathlib

/-
Verification development for the SER (speech emotion recognition) system.

The repository provides the React client (client/src/App.jsx) in source form;
the Flask backend (recording-session state machine, feature extractor,
ensemble predictor, inference orchestration) is exercised by the client
through the HTTP contract described in the design document but its code is
not part of the available sources, so those components are modelled from the
design document and marked as such in their doc comments.

Rationals stand in for the JavaScript / backend floating-point numbers.
-/

set_option maxRecDepth 100000

namespace SER

/-- The eight fixed emotion labels, in the canonical order given by the
design document (section 3, ClassProbabilities). -/
def emotionLabels : List String :=
  ["neutral", "calm", "happy", "sad", "angry", "fearful", "disgust", "surprised"]

/-- Name of the label at canonical position i. -/
def labelName (i : Fin 8) : String := emotionLabels.get ⟨i.val, i.isLt⟩

/-! ## Client model (from client/src/App.jsx)

The React component state is the five useState cells declared at the top of
App: isRecording, stream (modelled by whether a stream is held), emotionResult,
isProcessing, error.  The emotion result mirrors the object built in
stopRecording from the three response fields; the fields are Options because
the JavaScript object is dynamically typed. -/

/-- Client-side emotion result, as built by stopRecording in App.jsx
(lines 78-82): emotion, probabilities, duration taken from the response. -/
structure EmotionResult where
  emotion : Option String
  probabilities : Option (List (String × ℚ))
  duration : Option ℚ
deriving DecidableEq

/-- The App component state: the five useState cells of App.jsx. The media
stream object itself is irrelevant; we track only whether one is held. -/
structure ClientState where
  isRecording : Bool
  hasStream : Bool
  emotionResult : Option EmotionResult
  isProcessing : Bool
  error : Option String
deriving DecidableEq

/-- The JSON body of a stop_recording response as the client reads it:
data.status, data.emotion, data.probabilities, data.audio_duration,
data.error.  All payload fields are optional since the object is dynamic. -/
structure StopData where
  status : String
  emotion : Option String
  probabilities : Option (List (String × ℚ))
  audio_duration : Option ℚ
  errMsg : Option String
deriving DecidableEq

/-- Error message set by the catch branch of stopRecording (App.jsx line 90). -/
def stopErrorText : String := "Failed to process audio. Please try again."

/-- Error message set by the catch branch of startRecording (App.jsx line 48). -/
def startErrorText : String :=
  "Could not start recording. Please ensure you have a microphone and grant permission."

/-- Client stopRecording handler (App.jsx lines 56-94) as a state
transformer.  The try block first sets isProcessing, stops and clears the
stream, clears isRecording, then awaits the backend response (none models a
network/parse failure).  On status "success" it stores the three response
fields as the emotion result; otherwise it throws, the catch sets the fixed
error text, and the finally clause clears isProcessing on every path. -/
def stopRecordingClient (s : ClientState) (resp : Option StopData) : ClientState :=
  let s1 : ClientState := { s with isProcessing := true, hasStream := false, isRecording := false }
  match resp with
  | none => { s1 with error := some stopErrorText, isProcessing := false }
  | some d =>
    if d.status = "success" then
      { s1 with
        emotionResult := some
          { emotion := d.emotion, probabilities := d.probabilities, duration := d.audio_duration },
        isProcessing := false }
    else
      { s1 with error := some stopErrorText, isProcessing := false }

/-- Observable steps taken by the startRecording handler, in program order. -/
inductive ClientEvent where
  | setError (m : Option String)
  | setResult (r : Option EmotionResult)
  | micRequest
  | setStream (b : Bool)
  | setRecording (b : Bool)
  | backendStartRequest
  | stopTracks
deriving DecidableEq

/-- Effect of one startRecording step on the component state.  micRequest,
backendStartRequest and stopTracks touch no useState cell. -/
def applyEvent (s : ClientState) : ClientEvent → ClientState
  | .setError m => { s with error := m }
  | .setResult r => { s with emotionResult := r }
  | .micRequest => s
  | .setStream b => { s with hasStream := b }
  | .setRecording b => { s with isRecording := b }
  | .backendStartRequest => s
  | .stopTracks => s

/-- Catch branch of startRecording (App.jsx lines 46-53): sets the error
text, then stops and clears the stream if the closure held one. -/
def startCatchEvents (oldStream : Bool) : List ClientEvent :=
  [.setError (some startErrorText)] ++
    (if oldStream then [.stopTracks, .setStream false] else [])

/-- Trace of the startRecording handler (App.jsx lines 21-54).  It first
clears the error and the previous emotion result (lines 23-24), then requests
microphone access (line 27, which may throw), stores the stream, sets
isRecording, and contacts the backend (line 33); a backend status other than
"recording_started" throws (line 42).  Any throw lands in the catch branch.
oldStream is the stream value captured by the closure at render time. -/
def startRecordingEvents (oldStream micOk : Bool) (backendStatus : Option String) :
    List ClientEvent :=
  [.setError none, .setResult none] ++
    (if micOk then
      [.micRequest, .setStream true, .setRecording true, .backendStartRequest] ++
        (match backendStatus with
         | some st => if st = "recording_started" then [] else startCatchEvents oldStream
         | none => startCatchEvents oldStream)
    else
      [.micRequest] ++ startCatchEvents oldStream)

/-- Action chosen by the mic button handler requestMicAccess
(App.jsx lines 11-19): stop when already recording, start otherwise. -/
inductive MicAction where
  | start
  | stop
deriving DecidableEq

/-- requestMicAccess dispatch (App.jsx lines 11-19). -/
def chosenAction (s : ClientState) : MicAction :=
  if s.isRecording then .stop else .start

/-- Width (in percent) of a confidence bar for probability p
(App.jsx line 171). -/
def barWidthPercent (p : ℚ) : ℚ := p * 100

/-- Ordering used to display confidence entries: the value of the second
entry is at most the value of the first (App.jsx line 164, comparator
(b, a) => b - a, i.e. sort by value descending). -/
def probDesc : (String × ℚ) → (String × ℚ) → Prop := fun x y => y.2 ≤ x.2

instance : DecidableRel probDesc := fun x y => inferInstanceAs (Decidable (y.2 ≤ x.2))

instance : IsTotal (String × ℚ) probDesc := ⟨fun a b => le_total b.2 a.2⟩

instance : IsTrans (String × ℚ) probDesc := ⟨fun _ _ _ h1 h2 => le_trans h2 h1⟩

/-- The client sorts the probability entries by descending value before
rendering (App.jsx lines 163-164).  JavaScript Array.sort with that
comparator is a stable comparison sort; it is embedded as a stable
insertion sort under the probDesc relation. -/
def sortProbEntries (l : List (String × ℚ)) : List (String × ℚ) :=
  List.insertionSort probDesc l

/-- C9: for every probabilities object received in a successful
stop_recording response, the client renders the per-emotion confidence
entries sorted in non-increasing order of probability value, independent of
the key order of the received object: whatever the input list of entries,
the displayed list is a permutation of it and is pairwise non-increasing in
the probability component. -/
theorem client_sorts_probabilities_descending :
    ∀ l : List (String × ℚ),
      (sortProbEntries l).Perm l ∧
        List.Pairwise (fun x y : String × ℚ => y.2 ≤ x.2) (sortProbEntries l) :=
  fun l => ⟨List.perm_insertionSort probDesc l, List.sorted_insertionSort probDesc l⟩

/-- C10: every invocation of startRecording first sets the displayed error
and the previous emotion result to null, before requesting microphone access
or contacting the backend: the first two events of every trace are exactly
those two resets, the microphone request and the backend request are not
among them, and after those two steps the component state shows no error and
no emotion result, whatever state it started from. -/
theorem start_clears_error_and_result_first :
    ∀ (oldStream micOk : Bool) (backendStatus : Option String),
      (startRecordingEvents oldStream micOk backendStatus).take 2 =
          [ClientEvent.setError none, ClientEvent.setResult none] ∧
        ClientEvent.micRequest ∉ (startRecordingEvents oldStream micOk backendStatus).take 2 ∧
        ClientEvent.backendStartRequest ∉
          (startRecordingEvents oldStream micOk backendStatus).take 2 ∧
        ∀ s : ClientState,
          (((startRecordingEvents oldStream micOk backendStatus).take 2).foldl
                applyEvent s).error = none ∧
            (((startRecordingEvents oldStream micOk backendStatus).take 2).foldl
                applyEvent s).emotionResult = none := by
  intro oldStream micOk backendStatus
  have h : (startRecordingEvents oldStream micOk backendStatus).take 2 =
      [ClientEvent.setError none, ClientEvent.setResult none] := rfl
  refine ⟨h, ?_, ?_, fun s => ⟨rfl, rfl⟩⟩
  · rw [h]; decide
  · rw [h]; decide

/-! ## Backend model

The Flask backend (backend/app.py) is not among the available sources; the
definitions below are modelled from the design document: sections 3 (data
model), 4.1 (RecordingSession), 4.2 (FeatureExtractor), 4.3
(EnsemblePredictor), 4.4 (InferenceService) and 6 (wire contract). -/

/-- Modelled from the spec: a ClassProbabilities distribution (section 3) is
a mapping from the 8 fixed emotion labels to rational probabilities, indexed
here by canonical label position. -/
abbrev Dist := Fin 8 → ℚ

/-- Floating-point tolerance used by the normalization property (1e-6). -/
def tol : ℚ := 1 / 1000000

/-- A distribution is valid when the value at every label lies in the unit
interval and the values sum to 1 within the tolerance. -/
def validDist (d : Dist) : Prop :=
  (∀ i, 0 ≤ d i ∧ d i ≤ 1) ∧ |(∑ i, d i) - 1| ≤ tol

instance (d : Dist) : Decidable (validDist d) := by unfold validDist; infer_instance

/-- Modelled from the spec: a FeatureVector (section 3) is a fixed-length
ordered sequence of numbers. -/
abbrev FeatureVector := List ℚ

/-- Modelled from the spec: a trained classifier is a black-box scoring
capability; none models the classifier throwing while scoring (section 4.3
failure policy). -/
abbrev Classifier := FeatureVector → Option Dist

/-- Modelled from the spec: an AudioBuffer (section 3) is an ordered
sequence of signed mono sample amplitudes together with a sample rate. -/
structure AudioBuffer where
  samples : List ℚ
  rate : ℕ
deriving DecidableEq

/-- Buffer duration in seconds: sample count divided by sample rate. -/
def durationSec (b : AudioBuffer) : ℚ := (b.samples.length : ℚ) / (b.rate : ℚ)

/-- Minimum buffer duration accepted by the extractor (section 3, e.g. 0.3s). -/
def minDuration : ℚ := 3 / 10

/-- Energy floor below which a buffer counts as silence (section 4.2). -/
def silenceFloor : ℚ := 1 / 1000

/-- Mean sample amplitude of the buffer. -/
def meanAmp (b : AudioBuffer) : ℚ := b.samples.sum / (b.samples.length : ℚ)

/-- Mean squared amplitude, the (squared) RMS energy of the buffer. -/
def energy (b : AudioBuffer) : ℚ :=
  ((b.samples.map fun x => x * x).sum) / (b.samples.length : ℚ)

/-- Number of sign changes between adjacent samples. -/
def signChanges (l : List ℚ) : ℕ := ((l.zip l.tail).countP fun p => decide (p.1 * p.2 < 0))

/-- Zero-crossing rate of the buffer. -/
def zcrFeature (b : AudioBuffer) : ℚ := (signChanges b.samples : ℚ) / (b.samples.length : ℚ)

/-- Pitch estimate with the defined fallback (section 4.2): 0 when the
buffer is silent (energy below the floor), otherwise a zero-crossing based
fundamental-frequency estimate. -/
def pitchFeature (b : AudioBuffer) : ℚ :=
  if energy b < silenceFloor then 0 else (b.rate : ℚ) * zcrFeature b / 2

/-- Length of the extracted feature vector; a configuration constant
(section 3: length is invariant to input duration). -/
def FEATURE_DIM : ℕ := 4

/-- Modelled from the spec: the feature computation of FeatureExtractor
(section 4.2).  The MFCC / spectral / chroma / tonnetz statistics of the
real extractor are abstracted to four computable averaged descriptors (mean
amplitude, RMS energy, zero-crossing rate, pitch with silence fallback):
total functions of the buffer whose count does not depend on its length,
which is all the stated properties rely on. -/
def featureVec (b : AudioBuffer) : FeatureVector :=
  [meanAmp b, energy b, zcrFeature b, pitchFeature b]

/-- Modelled from the spec: FeatureExtractor.extract (section 4.2) fails
with InsufficientAudio on buffers shorter than the minimum duration and
otherwise produces the feature vector. -/
inductive CoreErr where
  | insufficientAudio
  | notRecording
  | alreadyRecording
  | noModelAvailable
  | featureDimensionMismatch
deriving DecidableEq

/-- Extraction: duration gate then total feature computation (section 4.2). -/
def extract (b : AudioBuffer) : Except CoreErr FeatureVector :=
  if durationSec b < minDuration then .error .insufficientAudio else .ok (featureVec b)

/-- Outputs of the classifiers that scored the vector without error, in the
fixed classifier order (section 4.3: the entire contribution of a failing
classifier is dropped). -/
def classifierOutputs (cls : List Classifier) (v : FeatureVector) : List Dist :=
  cls.filterMap fun c => c v

/-- Pointwise sum of a list of distributions. -/
def sumDist (outs : List Dist) : Dist := fun i => (outs.map fun d => d i).sum

/-- Unweighted arithmetic mean of the distributions (section 4.3 step 3). -/
def meanDist (outs : List Dist) : Dist := fun i => sumDist outs i / (outs.length : ℚ)

/-- Best label index among canonical positions 0..n, scanning in canonical
order and replacing the incumbent only on strictly larger probability, so an
exact tie keeps the earlier label (section 4.3 step 4 with its tie-break). -/
def bestUpTo (m : Dist) : ℕ → Fin 8
  | 0 => ⟨0, by norm_num⟩
  | n + 1 =>
    if h : n + 1 < 8 then
      if m (bestUpTo m n) < m ⟨n + 1, h⟩ then ⟨n + 1, h⟩ else bestUpTo m n
    else bestUpTo m n

/-- Argmax of a distribution over all 8 canonical positions. -/
def argmaxLabel (m : Dist) : Fin 8 := bestUpTo m 7

/-- Modelled from the spec: EnsemblePredictor.predict (section 4.3): reject
a wrong-length vector with FeatureDimensionMismatch, query every classifier,
drop failed classifiers, fail with NoModelAvailable when none remain, else
average the remaining outputs and take the argmax label. -/
def predict (cls : List Classifier) (v : FeatureVector) : Except CoreErr (String × Dist) :=
  if v.length ≠ FEATURE_DIM then .error .featureDimensionMismatch
  else if classifierOutputs cls v = [] then .error .noModelAvailable
  else
    .ok (labelName (argmaxLabel (meanDist (classifierOutputs cls v))),
      meanDist (classifierOutputs cls v))

/-- Modelled from the spec: the EnsembleVerdict (section 3): final label,
merged probabilities, source duration. -/
structure Verdict where
  emotion : String
  probs : Dist
  duration : ℚ
deriving DecidableEq

/-- Modelled from the spec: InferenceService.run (section 4.4): extraction
then prediction, propagating errors unchanged, with the recorded wall-clock
duration attached to the verdict. -/
def run (cls : List Classifier) (b : AudioBuffer) (recorded : ℚ) : Except CoreErr Verdict :=
  match extract b with
  | .error e => .error e
  | .ok v =>
    match predict cls v with
    | .error e => .error e
    | .ok (lab, m) => .ok { emotion := lab, probs := m, duration := recorded }

/-- Modelled from the spec: the RecordingSession states (section 4.1).  The
recording state owns the in-flight buffer and the start timestamp. -/
inductive SessionState where
  | idle
  | recording (buf : AudioBuffer) (startedAt : ℚ)
  | processing
deriving DecidableEq

/-- Modelled from the spec: RecordingSession.start (section 4.1): from Idle
it allocates a fresh empty buffer at the given sample rate and records the
start timestamp; from Recording or Processing it fails with AlreadyRecording
and leaves the state, in particular the active buffer, untouched. -/
def startTransition (s : SessionState) (now : ℚ) (rate : ℕ) :
    Except CoreErr Unit × SessionState :=
  match s with
  | .idle => (.ok (), .recording { samples := [], rate := rate } now)
  | s => (.error .alreadyRecording, s)

/-- Modelled from the spec: RecordingSession.append (section 4.1): appends a
chunk to the active buffer; only legal while Recording. -/
def appendChunk (s : SessionState) (chunk : List ℚ) :
    Except CoreErr Unit × SessionState :=
  match s with
  | .recording buf t0 =>
    (.ok (), .recording { samples := buf.samples ++ chunk, rate := buf.rate } t0)
  | s => (.error .notRecording, s)

/-- Modelled from the spec: RecordingSession.stop (section 4.1): from
Recording it freezes the buffer, computes the elapsed duration from the
session timer and moves to Processing; from Idle or Processing it fails with
NotRecording, state unchanged. -/
def stopTransition (s : SessionState) (now : ℚ) :
    Except CoreErr (AudioBuffer × ℚ) × SessionState :=
  match s with
  | .recording buf t0 => (.ok (buf, now - t0), .processing)
  | s => (.error .notRecording, s)

/-- Modelled from the spec: RecordingSession.complete (section 4.1): from
Processing the session always returns to Idle, whatever the outcome. -/
def completeTransition (s : SessionState) (outcome : Except CoreErr Verdict) : SessionState :=
  match s, outcome with
  | .processing, _ => .idle
  | s, _ => s

/-- JSON value shapes appearing in the wire contract (section 6). -/
inductive JValue where
  | str (s : String)
  | num (q : ℚ)
  | obj (entries : List (String × ℚ))
deriving DecidableEq

/-- Modelled from the spec: the stop_recording response (section 6): a
success variant carrying the emotion label, the probabilities map and the
audio duration, or a failure variant carrying a non-success status and an
error message. -/
inductive Response where
  | success (emotion : String) (probs : List (String × ℚ)) (audioDuration : ℚ)
  | failure (status : String) (msg : String)
deriving DecidableEq

/-- User-facing message for each core error (section 7 taxonomy). -/
def msgOfErr : CoreErr → String
  | .insufficientAudio => "Recording too short. Please speak longer."
  | .notRecording => "No active recording."
  | .alreadyRecording => "A recording is already in progress."
  | .noModelAvailable => "No model available."
  | .featureDimensionMismatch => "Internal server error."

/-- Failure response for a core error: status "error" plus the message
(section 6, failure shape). -/
def failureResp (e : CoreErr) : Response := .failure "error" (msgOfErr e)

/-- The probabilities map of a verdict as the ordered list of label/value
pairs over the 8 canonical labels. -/
def distToPairs (d : Dist) : List (String × ℚ) :=
  (List.finRange 8).map fun i => (labelName i, d i)

/-- Success response for a verdict (section 6, success shape). -/
def successResp (v : Verdict) : Response :=
  .success v.emotion (distToPairs v.probs) v.duration

/-- Serialization of a response to its JSON fields, in order (section 6):
a success response carries exactly status, emotion, probabilities and
audio_duration; a failure response carries exactly status and error. -/
def serializeResponse : Response → List (String × JValue)
  | .success e p d =>
    [("status", .str "success"), ("emotion", .str e),
      ("probabilities", .obj p), ("audio_duration", .num d)]
  | .failure st m => [("status", .str st), ("error", .str m)]

/-- How the client reads a parsed JSON body into the fields it uses:
field lookups on the serialized object, absent or ill-typed fields read as
null (App.jsx lines 75-85 access data.status, data.emotion,
data.probabilities, data.audio_duration, data.error). -/
def stopDataOfFields (fields : List (String × JValue)) : StopData :=
  { status :=
      match fields.lookup "status" with
      | some (.str s) => s
      | _ => ""
    emotion :=
      match fields.lookup "emotion" with
      | some (.str e) => some e
      | _ => none
    probabilities :=
      match fields.lookup "probabilities" with
      | some (.obj p) => some p
      | _ => none
    audio_duration :=
      match fields.lookup "audio_duration" with
      | some (.num q) => some q
      | _ => none
    errMsg :=
      match fields.lookup "error" with
      | some (.str m) => some m
      | _ => none }

/-- The stop_recording body as the client sees it for a given response. -/
def toStopData (r : Response) : StopData := stopDataOfFields (serializeResponse r)

/-- Modelled from the spec: the stop_recording request handling (sections
4.4 and 6): the session stop transition, then the inference run on the
frozen buffer, then the complete transition back to Idle, producing the
success or failure response. -/
def stopServer (cls : List Classifier) (s : SessionState) (now : ℚ) :
    Response × SessionState :=
  match stopTransition s now with
  | (.error e, s1) => (failureResp e, s1)
  | (.ok (buf, dur), s1) =>
    match run cls buf dur with
    | .ok v => (successResp v, completeTransition s1 (.ok v))
    | .error e => (failureResp e, completeTransition s1 (.error e))

/-! ## Concrete fixtures used by the witnesses -/

/-- The uniform distribution over the 8 labels. -/
def uniformDist : Dist := fun _ => (1 : ℚ) / 8

/-- A classifier that always scores successfully with the uniform
distribution. -/
def uniformClf : Classifier := fun _ => some uniformDist

/-- A classifier that always fails while scoring. -/
def failClf : Classifier := fun _ => none

/-- Three seconds of synthetic silence at 100 Hz. -/
def silentBuf3s : AudioBuffer := { samples := List.replicate 300 0, rate := 100 }

/-- A 0.05-second buffer at 100 Hz, below the minimum duration. -/
def shortBuf : AudioBuffer := { samples := List.replicate 5 0, rate := 100 }

/-- The verdict produced for the silent buffer by the uniform ensemble. -/
def uniformVerdict : Verdict :=
  { emotion := "neutral", probs := meanDist [uniformDist], duration := 3 }

/-- An idle client state. -/
def idleClient : ClientState :=
  { isRecording := false, hasStream := false, emotionResult := none,
    isProcessing := false, error := none }

/-- A client state that considers itself recording. -/
def recordingClient : ClientState :=
  { isRecording := true, hasStream := true, emotionResult := none,
    isProcessing := false, error := none }

/-! ## Helper lemmas -/

/-- Each canonical label is one of the 8 emotion labels. -/
lemma labelName_mem (i : Fin 8) : labelName i ∈ emotionLabels :=
  List.get_mem _ _ _

/-- The key list of a serialized probabilities map is exactly the canonical
label list, whatever the distribution. -/
lemma distToPairs_keys (d : Dist) : (distToPairs d).map Prod.fst = emotionLabels := by
  show ((List.finRange 8).map fun i => (labelName i, d i)).map Prod.fst = emotionLabels
  rw [List.map_map]
  have hcomp : (Prod.fst ∘ fun i : Fin 8 => (labelName i, d i)) = labelName := rfl
  rw [hcomp]
  decide

/-- Sum over the 8 labels of a pointwise list sum equals the list sum of the
per-distribution totals. -/
lemma sum_sumDist (outs : List Dist) :
    (∑ i, sumDist outs i) = (outs.map fun d => ∑ i, d i).sum := by
  induction outs with
  | nil => simp [sumDist]
  | cons d t ih =>
    have h : ∀ i, sumDist (d :: t) i = d i + sumDist t i := fun i => by
      simp [sumDist]
    simp only [h, Finset.sum_add_distrib, ih, List.map_cons, List.sum_cons]

/-- Totals within tolerance of 1 accumulate to within n times the tolerance
of n. -/
lemma abs_sum_sub_length (l : List ℚ) (hl : ∀ x ∈ l, |x - 1| ≤ tol) :
    |l.sum - (l.length : ℚ)| ≤ (l.length : ℚ) * tol := by
  induction l with
  | nil => simp
  | cons x t ih =>
    have hx : |x - 1| ≤ tol := hl x (by simp)
    have ht : |t.sum - (t.length : ℚ)| ≤ (t.length : ℚ) * tol :=
      ih fun y hy => hl y (by simp [hy])
    have hsplit : (x :: t).sum - ((x :: t).length : ℚ) =
        (x - 1) + (t.sum - (t.length : ℚ)) := by
      simp [List.sum_cons]
      ring
    rw [hsplit]
    calc |(x - 1) + (t.sum - (t.length : ℚ))| ≤ |x - 1| + |t.sum - (t.length : ℚ)| :=
          abs_add _ _
      _ ≤ tol + (t.length : ℚ) * tol := add_le_add hx ht
      _ = (((x :: t).length : ℚ)) * tol := by
          push_cast [List.length_cons]
          ring

/-- The unweighted mean of a nonempty list of valid distributions is itself
valid: every value lies in the unit interval and the total is within the
tolerance of 1. -/
lemma meanDist_valid (outs : List Dist) (h1 : outs ≠ [])
    (h2 : ∀ d ∈ outs, validDist d) : validDist (meanDist outs) := by
  have hlen : 0 < outs.length := List.length_pos.mpr h1
  have hn : (0 : ℚ) < (outs.length : ℚ) := by exact_mod_cast hlen
  constructor
  · intro i
    have hsum0 : 0 ≤ (outs.map fun d => d i).sum :=
      List.sum_nonneg fun x hx => by
        obtain ⟨d, hd, rfl⟩ := List.mem_map.mp hx
        exact ((h2 d hd).1 i).1
    have hsum1 : (outs.map fun d => d i).sum ≤ (outs.length : ℚ) := by
      have := List.sum_le_card_nsmul (outs.map fun d => d i) 1 fun x hx => by
        obtain ⟨d, hd, rfl⟩ := List.mem_map.mp hx
        exact ((h2 d hd).1 i).2
      simpa [nsmul_eq_mul] using this
    constructor
    · show (0 : ℚ) ≤ (outs.map fun d => d i).sum / (outs.length : ℚ)
      exact div_nonneg hsum0 (le_of_lt hn)
    · show (outs.map fun d => d i).sum / (outs.length : ℚ) ≤ 1
      rw [div_le_one hn]
      exact hsum1
  · have hswap : (∑ i, meanDist outs i) =
        ((outs.map fun d => ∑ i, d i).sum) / (outs.length : ℚ) := by
      show (∑ i, sumDist outs i / (outs.length : ℚ)) = _
      rw [← Finset.sum_div, sum_sumDist]
    rw [hswap]
    have hacc : |(outs.map fun d => ∑ i, d i).sum - (outs.length : ℚ)| ≤
        (outs.length : ℚ) * tol := by
      have := abs_sum_sub_length (outs.map fun d => ∑ i, d i) fun x hx => by
        obtain ⟨d, hd, rfl⟩ := List.mem_map.mp hx
        exact (h2 d hd).2
      simpa using this
    have hrw : (outs.map fun d => ∑ i, d i).sum / (outs.length : ℚ) - 1 =
        ((outs.map fun d => ∑ i, d i).sum - (outs.length : ℚ)) / (outs.length : ℚ) := by
      field_simp
    rw [hrw, abs_div, abs_of_pos hn, div_le_iff₀ hn]
    calc |(outs.map fun d => ∑ i, d i).sum - (outs.length : ℚ)| ≤
          (outs.length : ℚ) * tol := hacc
      _ = tol * (outs.length : ℚ) := mul_comm _ _

/-- Scanning up to position n yields a position whose probability dominates
every position at most n, strictly dominating every earlier position. -/
lemma bestUpTo_spec (m : Dist) :
    ∀ n : ℕ,
      (∀ j : Fin 8, j.val ≤ n → m j ≤ m (bestUpTo m n)) ∧
        (∀ j : Fin 8, j < bestUpTo m n → m j < m (bestUpTo m n)) := by
  intro n
  induction n with
  | zero =>
    constructor
    · intro j hj
      have : j = bestUpTo m 0 := Fin.ext (Nat.le_zero.mp hj)
      rw [this]
    · intro j hj
      exact absurd (Nat.lt_of_lt_of_le hj (Nat.le_refl 0)) (Nat.not_lt_zero j.val)
  | succ n ih =>
    by_cases h : n + 1 < 8
    · by_cases hlt : m (bestUpTo m n) < m ⟨n + 1, h⟩
      · have hb : bestUpTo m (n + 1) = ⟨n + 1, h⟩ := by
          simp only [bestUpTo, dif_pos h, if_pos hlt]
        rw [hb]
        constructor
        · intro j hj
          rcases Nat.lt_or_ge j.val (n + 1) with hj2 | hj2
          · exact le_of_lt (lt_of_le_of_lt (ih.1 j (Nat.lt_succ_iff.mp hj2)) hlt)
          · have : j = ⟨n + 1, h⟩ := Fin.ext (Nat.le_antisymm hj hj2)
            rw [this]
        · intro j hj
          have hj2 : j.val ≤ n := Nat.lt_succ_iff.mp hj
          exact lt_of_le_of_lt (ih.1 j hj2) hlt
      · have hb : bestUpTo m (n + 1) = bestUpTo m n := by
          simp only [bestUpTo, dif_pos h, if_neg hlt]
        rw [hb]
        constructor
        · intro j hj
          rcases Nat.lt_or_ge j.val (n + 1) with hj2 | hj2
          · exact ih.1 j (Nat.lt_succ_iff.mp hj2)
          · have : j = ⟨n + 1, h⟩ := Fin.ext (Nat.le_antisymm hj hj2)
            rw [this]
            exact not_lt.mp hlt
        · exact ih.2
    · have hb : bestUpTo m (n + 1) = bestUpTo m n := by
        simp only [bestUpTo, dif_neg h]
      rw [hb]
      constructor
      · intro j hj
        have hj8 : j.val < 8 := j.isLt
        have : j.val ≤ n := Nat.lt_succ_iff.mp (Nat.lt_of_lt_of_le hj8 (Nat.le_of_not_lt h))
        exact ih.1 j this
      · exact ih.2

/-- The argmax position carries the maximal probability, and any position
with the same probability is not earlier in the canonical order. -/
lemma argmaxLabel_spec (m : Dist) :
    (∀ j, m j ≤ m (argmaxLabel m)) ∧
      (∀ j, m j = m (argmaxLabel m) → argmaxLabel m ≤ j) := by
  have h := bestUpTo_spec m 7
  constructor
  · intro j
    exact h.1 j (Nat.lt_succ_iff.mp j.isLt)
  · intro j hj
    by_contra hc
    have hlt : j < argmaxLabel m := lt_of_not_ge hc
    exact absurd hj (ne_of_lt (h.2 j hlt))

/-- No classifier output survives the failure filter exactly when every
classifier fails on the vector. -/
lemma classifierOutputs_eq_nil (cls : List Classifier) (v : FeatureVector) :
    classifierOutputs cls v = [] ↔ ∀ c ∈ cls, c v = none := by
  unfold classifierOutputs
  exact List.filterMap_eq_nil_iff

instance {ε α : Type} [DecidableEq ε] [DecidableEq α] : DecidableEq (Except ε α) := fun a b =>
  match a, b with
  | .ok x, .ok y => decidable_of_iff (x = y) (by simp)
  | .error e, .error f => decidable_of_iff (e = f) (by simp)
  | .ok _, .error _ => isFalse (by simp)
  | .error _, .ok _ => isFalse (by simp)

/-! ## The claims -/

/-- C1: for every completed recording whose processing succeeds, the
stop_recording response is the success response for the computed verdict; it
serializes to exactly the fields status, emotion, probabilities and
audio_duration, with status "success" and the probabilities map keyed by
exactly the 8 emotion labels; and the client builds its displayed result
from exactly those three payload fields. -/
theorem stop_success_response_contract
    (cls : List Classifier) (buf : AudioBuffer) (t0 now : ℚ) (v : Verdict) (s : ClientState)
    (hrun : run cls buf (now - t0) = .ok v) :
    (stopServer cls (.recording buf t0) now).1 = successResp v ∧
    (serializeResponse (successResp v)).map Prod.fst =
      ["status", "emotion", "probabilities", "audio_duration"] ∧
    (serializeResponse (successResp v)).lookup "status" = some (.str "success") ∧
    (distToPairs v.probs).map Prod.fst = emotionLabels ∧
    (stopRecordingClient s (some (toStopData (successResp v)))).emotionResult =
      some { emotion := some v.emotion, probabilities := some (distToPairs v.probs),
             duration := some v.duration } := by
  refine ⟨?_, rfl, rfl, distToPairs_keys v.probs, ?_⟩
  · simp [stopServer, stopTransition, hrun]
  · rfl

unseal Rat.add Rat.mul Rat.inv Rat.sub in
theorem stop_success_response_contract_witness :
    run [uniformClf] silentBuf3s (5 - 2) = .ok uniformVerdict ∧
    (stopServer [uniformClf] (.recording silentBuf3s 2) 5).1 = successResp uniformVerdict ∧
    (stopRecordingClient idleClient (some (toStopData (successResp uniformVerdict)))).emotionResult =
      some { emotion := some uniformVerdict.emotion,
             probabilities := some (distToPairs uniformVerdict.probs),
             duration := some uniformVerdict.duration } :=
  ⟨by decide,
   (stop_success_response_contract [uniformClf] silentBuf3s 2 5 uniformVerdict idleClient
      (by decide)).1,
   (stop_success_response_contract [uniformClf] silentBuf3s 2 5 uniformVerdict idleClient
      (by decide)).2.2.2.2⟩

/-- C2: every failed stop_recording request produces a structured failure:
a run error is propagated into the failure response (never swallowed), every
failure response serializes to exactly a non-"success" status field and an
error message field, and on any non-success status the client sets its
displayed error and leaves the emotion result unset. -/
theorem stop_failure_response_contract
    (cls : List Classifier) (buf : AudioBuffer) (t0 now : ℚ) (e : CoreErr)
    (s : ClientState) (d : StopData)
    (hrun : run cls buf (now - t0) = .error e) (hd : d.status ≠ "success") :
    (stopServer cls (.recording buf t0) now).1 = failureResp e ∧
    (∀ e2 : CoreErr, serializeResponse (failureResp e2) =
        [("status", .str "error"), ("error", .str (msgOfErr e2))]) ∧
    ("error" : String) ≠ "success" ∧
    (stopRecordingClient s (some d)).error = some stopErrorText ∧
    (stopRecordingClient s (some d)).emotionResult = s.emotionResult := by
  refine ⟨?_, fun e2 => rfl, by decide, ?_, ?_⟩
  · simp [stopServer, stopTransition, hrun]
  · simp [stopRecordingClient, hd]
  · simp [stopRecordingClient, hd]

unseal Rat.add Rat.mul Rat.inv Rat.sub in
theorem stop_failure_response_contract_witness :
    run [uniformClf] shortBuf (1 - 0) = .error .insufficientAudio ∧
    (toStopData (failureResp .insufficientAudio)).status ≠ "success" ∧
    (stopServer [uniformClf] (.recording shortBuf 0) 1).1 = failureResp .insufficientAudio ∧
    (stopRecordingClient idleClient (some (toStopData (failureResp .insufficientAudio)))).error =
      some stopErrorText :=
  ⟨by decide, by decide,
   (stop_failure_response_contract [uniformClf] shortBuf 0 1 .insufficientAudio idleClient
      (toStopData (failureResp .insufficientAudio)) (by decide) (by decide)).1,
   (stop_failure_response_contract [uniformClf] shortBuf 0 1 .insufficientAudio idleClient
      (toStopData (failureResp .insufficientAudio)) (by decide) (by decide)).2.2.2.1⟩

/-- C3: at most one session may be Recording or Processing at a time: a
start on any non-Idle session fails with AlreadyRecording and leaves the
state, in particular the active buffer, untouched; a start succeeds exactly
from Idle and then moves to Recording with a fresh empty buffer; and the
client, when it already considers itself recording, dispatches a stop, never
a start. -/
theorem session_exclusivity
    (s : SessionState) (now : ℚ) (rate : ℕ) (cs : ClientState)
    (hs : s ≠ .idle) (hrec : cs.isRecording = true) :
    startTransition s now rate = (.error .alreadyRecording, s) ∧
    startTransition .idle now rate =
      (.ok (), .recording { samples := [], rate := rate } now) ∧
    (∀ (s2 : SessionState) (now2 : ℚ) (rate2 : ℕ) (r : Unit) (st2 : SessionState),
      startTransition s2 now2 rate2 = (.ok r, st2) →
        s2 = .idle ∧ st2 = .recording { samples := [], rate := rate2 } now2) ∧
    chosenAction cs = .stop := by
  refine ⟨?_, rfl, ?_, ?_⟩
  · cases s with
    | idle => exact absurd rfl hs
    | recording buf t0 => rfl
    | processing => rfl
  · intro s2 now2 rate2 r st2 h
    cases s2 with
    | idle =>
      refine ⟨rfl, ?_⟩
      have h2 := congrArg Prod.snd h
      simpa [startTransition] using h2.symm
    | recording buf t0 => simp [startTransition] at h
    | processing => simp [startTransition] at h
  · simp [chosenAction, hrec]

theorem session_exclusivity_witness :
    startTransition .processing 0 100 = (.error .alreadyRecording, .processing) ∧
    chosenAction recordingClient = .stop :=
  ⟨(session_exclusivity .processing 0 100 recordingClient (by decide) rfl).1,
   (session_exclusivity .processing 0 100 recordingClient (by decide) rfl).2.2.2⟩

/-- C4: every completion, success or error, returns the session to Idle:
complete from Processing always yields Idle, a full stop_recording handling
always leaves the session Idle whatever the run outcome, a subsequent start
then succeeds immediately, and the client clears its processing indicator on
every path out of stopRecording. -/
theorem session_never_stuck :
    (∀ outcome : Except CoreErr Verdict, completeTransition .processing outcome = .idle) ∧
    (∀ (cls : List Classifier) (buf : AudioBuffer) (t0 now : ℚ),
      (stopServer cls (.recording buf t0) now).2 = .idle) ∧
    (∀ (cls : List Classifier) (buf : AudioBuffer) (t0 now now2 : ℚ) (rate : ℕ),
      (startTransition ((stopServer cls (.recording buf t0) now).2) now2 rate).1 = .ok ()) ∧
    (∀ (s : ClientState) (resp : Option StopData),
      (stopRecordingClient s resp).isProcessing = false) := by
  have hidle : ∀ (cls : List Classifier) (buf : AudioBuffer) (t0 now : ℚ),
      (stopServer cls (.recording buf t0) now).2 = .idle := by
    intro cls buf t0 now
    cases h : run cls buf (now - t0) with
    | ok v => simp [stopServer, stopTransition, completeTransition, h]
    | error e => simp [stopServer, stopTransition, completeTransition, h]
  refine ⟨?_, hidle, ?_, ?_⟩
  · intro outcome
    cases outcome <;> rfl
  · intro cls buf t0 now now2 rate
    rw [hidle cls buf t0 now]
    rfl
  · intro s resp
    cases resp with
    | none => rfl
    | some d =>
      by_cases hd : d.status = "success"
      · simp [stopRecordingClient, hd]
      · simp [stopRecordingClient, hd]

/-- C5: when every classifier output is a valid distribution over the 8
labels (each value in the unit interval, total within 1e-6 of 1), the merged
ensemble distribution is valid as well; and the client turns any probability
in the unit interval into a bar width between 0 and 100 percent. -/
theorem probability_normalization
    (outs : List Dist) (p : ℚ)
    (h1 : outs ≠ []) (h2 : ∀ d ∈ outs, validDist d) (hp0 : 0 ≤ p) (hp1 : p ≤ 1) :
    validDist (meanDist outs) ∧ 0 ≤ barWidthPercent p ∧ barWidthPercent p ≤ 100 := by
  refine ⟨meanDist_valid outs h1 h2, ?_, ?_⟩
  · exact mul_nonneg hp0 (by norm_num)
  · show p * 100 ≤ 100
    nlinarith

unseal Rat.add Rat.mul Rat.inv Rat.sub in
theorem probability_normalization_witness :
    validDist (meanDist [uniformDist]) ∧
      0 ≤ barWidthPercent (1 / 8) ∧ barWidthPercent (1 / 8) ≤ 100 :=
  probability_normalization [uniformDist] (1 / 8) (by decide) (by decide)
    (by decide) (by decide)

/-- C6: every successful prediction merges the surviving classifier outputs
by the unweighted arithmetic mean of the per-label probabilities, and its label
is the argmax of the merged distribution: the merged value at the returned
position dominates every label, and any label with exactly the same merged
probability comes no earlier in the canonical label ordering. -/
theorem ensemble_mean_and_argmax
    (cls : List Classifier) (v : FeatureVector) (lab : String) (m : Dist)
    (h : predict cls v = .ok (lab, m)) :
    (∀ i, m i = ((classifierOutputs cls v).map fun d => d i).sum /
        ((classifierOutputs cls v).length : ℚ)) ∧
    lab = labelName (argmaxLabel m) ∧
    (∀ j, m j ≤ m (argmaxLabel m)) ∧
    (∀ j, m j = m (argmaxLabel m) → argmaxLabel m ≤ j) := by
  by_cases hdim : v.length = FEATURE_DIM
  · have hnotdim : ¬ (v.length ≠ FEATURE_DIM) := by simp [hdim]
    by_cases houts : classifierOutputs cls v = []
    · unfold predict at h
      rw [if_neg hnotdim, if_pos houts] at h
      simp at h
    · unfold predict at h
      rw [if_neg hnotdim, if_neg houts] at h
      simp only [Except.ok.injEq, Prod.mk.injEq] at h
      obtain ⟨hlab, hm⟩ := h
      subst hm
      subst hlab
      exact ⟨fun i => rfl, rfl, (argmaxLabel_spec _).1, (argmaxLabel_spec _).2⟩
  · unfold predict at h
    rw [if_pos hdim] at h
    simp at h

unseal Rat.add Rat.mul Rat.inv Rat.sub in
theorem ensemble_mean_and_argmax_witness :
    predict [uniformClf] (List.replicate 4 0) = .ok ("neutral", meanDist [uniformDist]) ∧
    "neutral" = labelName (argmaxLabel (meanDist [uniformDist])) :=
  ⟨by decide,
   (ensemble_mean_and_argmax [uniformClf] (List.replicate 4 0) "neutral"
      (meanDist [uniformDist]) (by decide)).2.1⟩

/-- C7: on a well-dimensioned vector, predict fails with NoModelAvailable
exactly when every classifier fails; as soon as one classifier succeeds,
predict returns the verdict averaged over the surviving outputs only, and if
those surviving outputs are valid distributions the merged distribution is
fully normalized. -/
theorem degraded_ensemble_tolerance
    (cls : List Classifier) (v : FeatureVector) (hdim : v.length = FEATURE_DIM) :
    (predict cls v = .error .noModelAvailable ↔ ∀ c ∈ cls, c v = none) ∧
    ((∃ c ∈ cls, c v ≠ none) →
      predict cls v = .ok
        (labelName (argmaxLabel (meanDist (classifierOutputs cls v))),
          meanDist (classifierOutputs cls v)) ∧
      ((∀ d ∈ classifierOutputs cls v, validDist d) →
        validDist (meanDist (classifierOutputs cls v)))) := by
  have hnotdim : ¬ (v.length ≠ FEATURE_DIM) := by simp [hdim]
  constructor
  · constructor
    · intro h
      by_contra hc
      have houts : classifierOutputs cls v ≠ [] := fun hh =>
        hc ((classifierOutputs_eq_nil cls v).mp hh)
      unfold predict at h
      rw [if_neg hnotdim, if_neg houts] at h
      simp at h
    · intro hall
      unfold predict
      rw [if_neg hnotdim, if_pos ((classifierOutputs_eq_nil cls v).mpr hall)]
  · intro hex
    have houts : classifierOutputs cls v ≠ [] := by
      intro hh
      obtain ⟨c, hc, hcv⟩ := hex
      exact hcv ((classifierOutputs_eq_nil cls v).mp hh c hc)
    constructor
    · unfold predict
      rw [if_neg hnotdim, if_neg houts]
    · intro hvalid
      exact meanDist_valid _ houts hvalid

unseal Rat.add Rat.mul Rat.inv Rat.sub in
theorem degraded_ensemble_tolerance_witness :
    predict [failClf, uniformClf] (List.replicate 4 0) =
      .ok (labelName (argmaxLabel
            (meanDist (classifierOutputs [failClf, uniformClf] (List.replicate 4 0)))),
        meanDist (classifierOutputs [failClf, uniformClf] (List.replicate 4 0))) ∧
    validDist (meanDist (classifierOutputs [failClf, uniformClf] (List.replicate 4 0))) ∧
    predict [failClf] (List.replicate 4 0) = .error .noModelAvailable :=
  ⟨((degraded_ensemble_tolerance [failClf, uniformClf] (List.replicate 4 0)
        (by decide)).2 (by decide)).1,
   ((degraded_ensemble_tolerance [failClf, uniformClf] (List.replicate 4 0)
        (by decide)).2 (by decide)).2 (by decide),
   (degraded_ensemble_tolerance [failClf] (List.replicate 4 0) (by decide)).1.mpr (by decide)⟩

/-- C8: extraction fails with InsufficientAudio exactly when the buffer is
shorter than the minimum duration, and run propagates that failure; a buffer
of sufficient duration always extracts to a feature vector of the fixed
length; an entirely silent buffer yields the all-zero fallback vector; and a
silent-but-long-enough buffer still runs to a successful verdict whose
emotion is one of the 8 labels and whose probabilities carry exactly those 8
keys, provided any classifier at all can score. -/
theorem insufficient_audio_iff_short
    (b : AudioBuffer) (cls : List Classifier) (recorded : ℚ) :
    (extract b = .error .insufficientAudio ↔ durationSec b < minDuration) ∧
    (durationSec b < minDuration → run cls b recorded = .error .insufficientAudio) ∧
    (minDuration ≤ durationSec b →
      extract b = .ok (featureVec b) ∧ (featureVec b).length = FEATURE_DIM) ∧
    ((∀ x ∈ b.samples, x = 0) → featureVec b = [0, 0, 0, 0]) ∧
    (minDuration ≤ durationSec b → (∃ c ∈ cls, c (featureVec b) ≠ none) →
      ∃ ver : Verdict, run cls b recorded = .ok ver ∧ ver.emotion ∈ emotionLabels ∧
        (distToPairs ver.probs).map Prod.fst = emotionLabels) := by
  refine ⟨⟨?_, ?_⟩, ?_, ?_, ?_, ?_⟩
  · intro h
    by_contra hc
    unfold extract at h
    rw [if_neg hc] at h
    simp at h
  · intro h
    unfold extract
    rw [if_pos h]
  · intro h
    have he : extract b = .error .insufficientAudio := by
      unfold extract
      rw [if_pos h]
    simp [run, he]
  · intro h
    have hnl : ¬ (durationSec b < minDuration) := not_lt.mpr h
    exact ⟨by unfold extract; rw [if_neg hnl], rfl⟩
  · intro hz
    have hsum : b.samples.sum = 0 := List.sum_eq_zero hz
    have hsq : (b.samples.map fun x => x * x).sum = 0 := by
      refine List.sum_eq_zero ?_
      intro y hy
      obtain ⟨x, hx, rfl⟩ := List.mem_map.mp hy
      rw [hz x hx]
      ring
    have hcount : signChanges b.samples = 0 := by
      unfold signChanges
      rw [List.countP_eq_zero]
      intro pr hpr
      obtain ⟨a, a2⟩ := pr
      obtain ⟨ha, ha2⟩ := List.of_mem_zip hpr
      rw [hz a ha, zero_mul]
      simp
    have hMA : meanAmp b = 0 := by
      unfold meanAmp
      rw [hsum]
      exact zero_div _
    have hE : energy b = 0 := by
      unfold energy
      rw [hsq]
      exact zero_div _
    have hZ : zcrFeature b = 0 := by
      unfold zcrFeature
      rw [hcount]
      simp
    have hP : pitchFeature b = 0 := by
      unfold pitchFeature
      rw [hE, if_pos (by norm_num [silenceFloor])]
    unfold featureVec
    rw [hMA, hE, hZ, hP]
  · intro hd hex
    have hok : extract b = .ok (featureVec b) := by
      unfold extract
      rw [if_neg (not_lt.mpr hd)]
    have houts : classifierOutputs cls (featureVec b) ≠ [] := by
      intro hh
      obtain ⟨c, hc, hcv⟩ := hex
      exact hcv ((classifierOutputs_eq_nil cls (featureVec b)).mp hh c hc)
    refine ⟨{ emotion := labelName (argmaxLabel (meanDist (classifierOutputs cls (featureVec b)))),
              probs := meanDist (classifierOutputs cls (featureVec b)),
              duration := recorded }, ?_, labelName_mem _, distToPairs_keys _⟩
    have hpred : predict cls (featureVec b) =
        .ok (labelName (argmaxLabel (meanDist (classifierOutputs cls (featureVec b)))),
          meanDist (classifierOutputs cls (featureVec b))) := by
      unfold predict
      rw [if_neg (by simp [FEATURE_DIM, featureVec]), if_neg houts]
    simp [run, hok, hpred]

unseal Rat.add Rat.mul Rat.inv Rat.sub in
theorem insufficient_audio_iff_short_witness :
    extract shortBuf = .error .insufficientAudio ∧
    featureVec silentBuf3s = [0, 0, 0, 0] ∧
    (∃ ver : Verdict, run [uniformClf] silentBuf3s 3 = .ok ver ∧
      ver.emotion ∈ emotionLabels ∧
      (distToPairs ver.probs).map Prod.fst = emotionLabels) :=
  ⟨(insufficient_audio_iff_short shortBuf [uniformClf] 3).1.mpr (by decide),
   (insufficient_audio_iff_short silentBuf3s [uniformClf] 3).2.2.2.1 (by decide),
   (insufficient_audio_iff_short silentBuf3s [uniformClf] 3).2.2.2.2 (by decide) (by decide)⟩

end SER
